import Mathlib

/-!
Verification development for the guitar-string simulation (`src/main.rs`).

The simulation core is shallowly embedded: `Vect` models the 2D `f64`
vector type, `Dot` the mass point, `Chord` the chain of points plus the
stiffness coefficient `k`.  Rust `f64` arithmetic is modelled by the real
numbers `ℝ`; the `u16` segment count and its truncating division by 2 are
modelled by `ℕ` with `Nat` division.  The in-place loops of `Chord::tick`
are modelled by `List.foldl` over `List.range`, each iteration reading the
current list and writing one entry back with `List.set`, exactly as the
Rust loops read and write `dots[i]`.
-/

/-- Model of `struct Vect { x: f64, y: f64 }`. -/
@[ext]
structure Vect where
  x : ℝ
  y : ℝ

/-- Model of `impl Add for Vect`: componentwise sum. -/
def Vect.add (a b : Vect) : Vect := ⟨a.x + b.x, a.y + b.y⟩

/-- Model of `impl Sub for Vect`: componentwise difference. -/
def Vect.sub (a b : Vect) : Vect := ⟨a.x - b.x, a.y - b.y⟩

/-- Model of `Vect::size`: the Euclidean norm. -/
noncomputable def Vect.size (v : Vect) : ℝ := Real.sqrt (v.x * v.x + v.y * v.y)

/-- Model of `Vect::scale`: in Rust it mutates the receiver in place; here it
returns the scaled vector, and every call site writes the result back. -/
def Vect.scale (v : Vect) (r : ℝ) : Vect := ⟨v.x * r, v.y * r⟩

/-- Model of `struct Dot { pos, vel, acc, fixed }`. -/
@[ext]
structure Dot where
  pos : Vect
  vel : Vect
  acc : Vect
  fixed : Bool

/-- Model of `Dot::new(x, y, f)`: position `(x, y)`, zero velocity and
zero acceleration. -/
def Dot.new (x y : ℝ) (f : Bool) : Dot :=
  ⟨⟨x, y⟩, ⟨0, 0⟩, ⟨0, 0⟩, f⟩

/-- Model of `Dot::move_it`: `pos ← pos + vel`. -/
def Dot.move_it (d : Dot) : Dot := { d with pos := d.pos.add d.vel }

/-- Model of `Dot::accelerate`: `vel ← vel + acc`. -/
def Dot.accelerate (d : Dot) : Dot := { d with vel := d.vel.add d.acc }

/-- Model of `Dot::get_force(self, dot)`: the vector from `self`'s position
to `dot`'s position, built componentwise as in the source. -/
def Dot.get_force (d dot : Dot) : Vect :=
  ⟨dot.pos.x - d.pos.x, dot.pos.y - d.pos.y⟩

/-- Model of `Dot::set_force(vect)`: overwrite the acceleration. -/
def Dot.set_force (d : Dot) (vect : Vect) : Dot := { d with acc := vect }

/-- Default dot used to totalise list indexing.  Every index the embedded
loops read is in range, so this default is never actually consulted. -/
def dot0 : Dot := Dot.new 0 0 false

/-- Model of `struct Chord { k: f64, chord: Vec<Dot> }`. -/
structure Chord where
  k : ℝ
  chord : List Dot

/-- Model of `Chord::new(n, k)` (the linear tent/V profile):
a fixed dot at `(0,0)`, then `for i in 1..n/2` a free dot at
`(i, i·0.375)`, then `for i in n/2..n` a free dot at `(i, (n−i)·0.375)`,
then a fixed dot at `(n, 0)`. -/
noncomputable def Chord.new (n : ℕ) (k : ℝ) : Chord :=
  { k := k,
    chord :=
      [Dot.new 0 0 true]
        ++ (List.range' 1 (n / 2 - 1)).map
            (fun (i : ℕ) => Dot.new (i : ℝ) ((i : ℝ) * 0.375) false)
        ++ (List.range' (n / 2) (n - n / 2)).map
            (fun (i : ℕ) => Dot.new (i : ℝ) (((n : ℝ) - (i : ℝ)) * 0.375) false)
        ++ [Dot.new (n : ℝ) 0 true] }

/-- Model of `Chord::new_sine(n, k)` (the half-sine profile):
a fixed dot at `(0,0)`, then `for i in 1..n` a free dot at
`(i, sin(π·i/n)·5)`, then a fixed dot at `(n, 0)`. -/
noncomputable def Chord.new_sine (n : ℕ) (k : ℝ) : Chord :=
  { k := k,
    chord :=
      [Dot.new 0 0 true]
        ++ (List.range' 1 (n - 1)).map
            (fun (i : ℕ) => Dot.new (i : ℝ) (Real.sin (Real.pi * (i : ℝ) / (n : ℝ)) * 5) false)
        ++ [Dot.new (n : ℝ) 0 true] }

/-- Force accumulator of the first loop of `Chord::tick` after the first
conditional: `force = Vect {0,0}`, plus `dots[i].get_force(dots[i-1])`
when `i > 0`. -/
def forceLeft (ds : List Dot) (i : ℕ) : Vect :=
  if 0 < i then Vect.add ⟨0, 0⟩ ((ds.getD i dot0).get_force (ds.getD (i - 1) dot0))
  else ⟨0, 0⟩

/-- Force accumulator after the second conditional: the previous value,
plus `dots[i].get_force(dots[i+1])` when `i < dots.len() - 1`. -/
def forceBoth (ds : List Dot) (i : ℕ) : Vect :=
  if i < ds.length - 1 then
    Vect.add (forceLeft ds i) ((ds.getD i dot0).get_force (ds.getD (i + 1) dot0))
  else forceLeft ds i

/-- Body of the first loop of `Chord::tick` at index `i`: accumulate the
neighbour forces, scale by `k`, store as `dots[i]`'s acceleration. -/
def tickForceStep (k : ℝ) (ds : List Dot) (i : ℕ) : List Dot :=
  ds.set i ((ds.getD i dot0).set_force ((forceBoth ds i).scale k))

/-- Body of the second loop of `Chord::tick` at index `i`: skip fixed dots,
otherwise `dots[i].accelerate(); dots[i].move_it();`. -/
def tickMoveStep (ds : List Dot) (i : ℕ) : List Dot :=
  if (ds.getD i dot0).fixed then ds
  else ds.set i ((ds.getD i dot0).accelerate.move_it)

/-- Model of `Chord::tick`: the force loop over `0..dots.len()`, then the
integration loop over the same range, each modelled as a left fold
threading the mutated vector of dots. -/
def Chord.tick (c : Chord) : Chord :=
  { k := c.k,
    chord :=
      (List.range ((List.range c.chord.length).foldl (tickForceStep c.k) c.chord).length).foldl
        tickMoveStep
        ((List.range c.chord.length).foldl (tickForceStep c.k) c.chord) }

/-- Position of the dot at index `i`. -/
def posAt (ds : List Dot) (i : ℕ) : Vect := (ds.getD i dot0).pos

/-- Acceleration the specification assigns to point `i` in the first phase:
stiffness times the sum of `position[i-1] − position[i]` (when `i > 0`) and
`position[i+1] − position[i]` (when `i < last`), all read from the
pre-tick positions `ds`. -/
def specAcc (k : ℝ) (ds : List Dot) (i : ℕ) : Vect :=
  Vect.scale
    (Vect.add
      (if 0 < i then Vect.sub (posAt ds (i - 1)) (posAt ds i) else ⟨0, 0⟩)
      (if i < ds.length - 1 then Vect.sub (posAt ds (i + 1)) (posAt ds i) else ⟨0, 0⟩))
    k

/-- Second-phase update of a single point as the specification describes it:
fixed points are left untouched; for a free point the velocity becomes
`vel + acc` and the position becomes `pos + (vel + acc)`, in that order. -/
def specIntegrate (d : Dot) : Dot :=
  if d.fixed then d
  else { d with vel := d.vel.add d.acc, pos := d.pos.add (d.vel.add d.acc) }

/-- Two-phase functional description of `tick`, written from the
specification: every point first receives its new acceleration computed
from the pre-tick positions, then every non-fixed point integrates
velocity and position. -/
def tickSpec (c : Chord) : Chord :=
  { k := c.k,
    chord := (List.range c.chord.length).map
      (fun i => specIntegrate ((c.chord.getD i dot0).set_force (specAcc c.k c.chord i))) }

/-- Predicate: all dots of the list lie on one common line. -/
def Colinear (ds : List Dot) : Prop :=
  ∃ a b c : ℝ, (a ≠ 0 ∨ b ≠ 0) ∧ ∀ d ∈ ds, a * d.pos.x + b * d.pos.y = c

/-- Predicate: consecutive position differences are all equal, i.e. the
dots are equally spaced along one line. -/
def EquallySpaced (ds : List Dot) : Prop :=
  ∀ i, i + 1 < ds.length →
    Vect.sub (posAt ds (i + 1)) (posAt ds i) = Vect.sub (posAt ds 1) (posAt ds 0)

/-- Invariant for the straight-flight claims: each dot sits at x-coordinate
equal to its index, has horizontal velocity zero, free dots have
horizontal acceleration zero, and the two ends of the chain are fixed. -/
def StraightInv (c : Chord) : Prop :=
  ∀ i, i < c.chord.length →
    (c.chord.getD i dot0).pos.x = (i : ℝ) ∧
    (c.chord.getD i dot0).vel.x = 0 ∧
    ((c.chord.getD i dot0).fixed = false → (c.chord.getD i dot0).acc.x = 0) ∧
    ((i = 0 ∨ i = c.chord.length - 1) → (c.chord.getD i dot0).fixed = true)

lemma Dot.pos_set_force (d : Dot) (v : Vect) : (d.set_force v).pos = d.pos := rfl

lemma Dot.vel_set_force (d : Dot) (v : Vect) : (d.set_force v).vel = d.vel := rfl

lemma Dot.acc_set_force (d : Dot) (v : Vect) : (d.set_force v).acc = v := rfl

lemma Dot.fixed_set_force (d : Dot) (v : Vect) : (d.set_force v).fixed = d.fixed := rfl

/-- Sequentially running `accelerate` then `move_it` on one dot performs the
symplectic-Euler update: new velocity first, then position integrates it. -/
lemma Dot.accelerate_move_it (d : Dot) :
    d.accelerate.move_it =
      { d with vel := d.vel.add d.acc, pos := d.pos.add (d.vel.add d.acc) } := rfl

lemma getD_set_self {l : List Dot} {i : ℕ} (h : i < l.length) (a : Dot) :
    (l.set i a).getD i dot0 = a := by
  rw [List.getD_eq_getElem _ _ (by simpa using h)]
  exact List.getElem_set_self _

lemma getD_set_ne {l : List Dot} {i j : ℕ} (h : i ≠ j) (a : Dot) :
    (l.set i a).getD j dot0 = l.getD j dot0 := by
  by_cases hj : j < l.length
  · rw [List.getD_eq_getElem _ _ (by simpa using hj), List.getD_eq_getElem _ _ hj]
    exact List.getElem_set_ne h _
  · rw [List.getD_eq_default _ _ (by simpa using le_of_not_lt hj),
      List.getD_eq_default _ _ (le_of_not_lt hj)]

/-- The accumulated neighbour force, scaled by the stiffness, is exactly the
acceleration the specification prescribes. -/
lemma forceBoth_scale (k : ℝ) (ds : List Dot) (i : ℕ) :
    (forceBoth ds i).scale k = specAcc k ds i := by
  by_cases h1 : 0 < i <;> by_cases h2 : i < ds.length - 1 <;>
    ext <;>
      simp [forceBoth, forceLeft, specAcc, posAt, Dot.get_force, Vect.add, Vect.sub,
        Vect.scale, h1, h2]

/-- The accumulated force depends only on the positions and the length of
the list of dots. -/
lemma forceBoth_congr {ds B : List Dot} (hlen : B.length = ds.length)
    (hpos : ∀ j, (B.getD j dot0).pos = (ds.getD j dot0).pos) (i : ℕ) :
    forceBoth B i = forceBoth ds i := by
  unfold forceBoth forceLeft
  rw [hlen]
  simp only [Dot.get_force, hpos]

/-- Characterisation of the first (force) loop of `tick` after `m`
iterations: lengths are preserved, the first `m` dots have received the
specified acceleration, the rest are untouched.  In particular every
position read during the loop is a pre-tick position. -/
lemma forceFold_char (k : ℝ) (ds : List Dot) :
    ∀ m, m ≤ ds.length →
      ((List.range m).foldl (tickForceStep k) ds).length = ds.length ∧
      ∀ j, ((List.range m).foldl (tickForceStep k) ds).getD j dot0 =
        if j < m then (ds.getD j dot0).set_force (specAcc k ds j) else ds.getD j dot0 := by
  intro m
  induction m with
  | zero => intro _; simp
  | succ m ih =>
    intro hm
    obtain ⟨hBlen, hBget⟩ := ih (Nat.le_of_succ_le hm)
    have hmlt : m < ds.length := hm
    have hpos : ∀ j, (((List.range m).foldl (tickForceStep k) ds).getD j dot0).pos =
        (ds.getD j dot0).pos := by
      intro j
      rw [hBget j]
      by_cases hj : j < m <;> simp [hj, Dot.pos_set_force]
    rw [List.range_succ, List.foldl_append]
    constructor
    · simp only [List.foldl_cons, List.foldl_nil, tickForceStep]
      rw [List.length_set, hBlen]
    · intro j
      simp only [List.foldl_cons, List.foldl_nil, tickForceStep]
      by_cases hj : j = m
      · subst hj
        rw [getD_set_self (by rw [hBlen]; exact hmlt) _]
        rw [hBget j, if_neg (lt_irrefl j), forceBoth_congr hBlen hpos, forceBoth_scale]
        simp [Nat.lt_succ_self]
      · rw [getD_set_ne (fun h => hj h.symm) _, hBget j]
        by_cases hlt : j < m
        · rw [if_pos hlt, if_pos (Nat.lt_succ_of_lt hlt)]
        · rw [if_neg hlt, if_neg (by omega)]

/-- Characterisation of the second (integration) loop of `tick` after `m`
iterations: the first `m` dots have been integrated (fixed dots skipped),
the rest are untouched. -/
lemma moveFold_char (A : List Dot) :
    ∀ m, m ≤ A.length →
      ((List.range m).foldl tickMoveStep A).length = A.length ∧
      ∀ j, ((List.range m).foldl tickMoveStep A).getD j dot0 =
        if j < m then specIntegrate (A.getD j dot0) else A.getD j dot0 := by
  intro m
  induction m with
  | zero => intro _; simp
  | succ m ih =>
    intro hm
    obtain ⟨hBlen, hBget⟩ := ih (Nat.le_of_succ_le hm)
    have hmlt : m < A.length := hm
    have hBm : ((List.range m).foldl tickMoveStep A).getD m dot0 = A.getD m dot0 := by
      rw [hBget m, if_neg (lt_irrefl m)]
    rw [List.range_succ, List.foldl_append]
    simp only [List.foldl_cons, List.foldl_nil, tickMoveStep, hBm]
    by_cases hfix : (A.getD m dot0).fixed
    · rw [if_pos hfix]
      refine ⟨hBlen, fun j => ?_⟩
      rw [hBget j]
      by_cases hj : j = m
      · subst hj
        rw [if_neg (lt_irrefl j), if_pos (Nat.lt_succ_self j)]
        unfold specIntegrate
        rw [if_pos hfix]
      · by_cases hlt : j < m
        · rw [if_pos hlt, if_pos (Nat.lt_succ_of_lt hlt)]
        · rw [if_neg hlt, if_neg (by omega)]
    · rw [if_neg hfix]
      constructor
      · rw [List.length_set, hBlen]
      · intro j
        by_cases hj : j = m
        · subst hj
          rw [getD_set_self (by rw [hBlen]; exact hmlt) _, if_pos (Nat.lt_succ_self j)]
          rw [Dot.accelerate_move_it]
          unfold specIntegrate
          rw [if_neg hfix]
        · rw [getD_set_ne (fun h => hj h.symm) _, hBget j]
          by_cases hlt : j < m
          · rw [if_pos hlt, if_pos (Nat.lt_succ_of_lt hlt)]
          · rw [if_neg hlt, if_neg (by omega)]

/-- Bridge between the in-place loop implementation of `tick` and its
two-phase functional description: they produce identical chords. -/
lemma tick_eq_tickSpec (c : Chord) : c.tick = tickSpec c := by
  obtain ⟨hAlen, hAget⟩ := forceFold_char c.k c.chord c.chord.length le_rfl
  obtain ⟨hBlen, hBget⟩ :=
    moveFold_char ((List.range c.chord.length).foldl (tickForceStep c.k) c.chord)
      ((List.range c.chord.length).foldl (tickForceStep c.k) c.chord).length le_rfl
  unfold Chord.tick tickSpec
  congr 1
  apply List.ext_getElem
  · rw [hBlen, hAlen, List.length_map, List.length_range]
  · intro i h1 h2
    have hi : i < c.chord.length := by
      have := h1
      rw [hBlen, hAlen] at this
      exact this
    rw [← List.getD_eq_getElem _ dot0 h1, ← List.getD_eq_getElem _ dot0 h2]
    rw [hBget i, if_pos (by rw [hAlen]; exact hi), hAget i, if_pos hi]
    rw [List.getD_eq_getElem _ dot0 h2, List.getElem_map, List.getElem_range]

lemma tick_k (c : Chord) : c.tick.k = c.k := rfl

lemma tick_length (c : Chord) : c.tick.chord.length = c.chord.length := by
  rw [tick_eq_tickSpec]
  simp [tickSpec]

lemma tick_getD (c : Chord) {i : ℕ} (h : i < c.chord.length) :
    c.tick.chord.getD i dot0 =
      specIntegrate ((c.chord.getD i dot0).set_force (specAcc c.k c.chord i)) := by
  rw [tick_eq_tickSpec]
  unfold tickSpec
  rw [List.getD_eq_getElem _ dot0 (by simpa using h), List.getElem_map, List.getElem_range]

lemma getD_oob {l : List Dot} {i : ℕ} (h : l.length ≤ i) : l.getD i dot0 = dot0 :=
  List.getD_eq_default l dot0 h

/-- Closed form of `tick` on a three-dot chord, obtained by running both
loops; `specIntegrate` stays symbolic because the fixed flags are unknown. -/
lemma tick_three (k : ℝ) (d0 d1 d2 : Dot) :
    (Chord.mk k [d0, d1, d2]).tick =
      Chord.mk k
        [specIntegrate (d0.set_force ((Vect.add ⟨0, 0⟩ (Vect.sub d1.pos d0.pos)).scale k)),
         specIntegrate (d1.set_force
           ((Vect.add (Vect.sub d0.pos d1.pos) (Vect.sub d2.pos d1.pos)).scale k)),
         specIntegrate (d2.set_force ((Vect.add (Vect.sub d1.pos d2.pos) ⟨0, 0⟩).scale k))] := by
  rw [tick_eq_tickSpec]
  rfl

lemma new_length (n : ℕ) (k : ℝ) (hn : 2 ≤ n) :
    (Chord.new n k).chord.length = n + 1 := by
  unfold Chord.new
  simp only [List.length_append, List.length_map, List.length_range', List.length_cons,
    List.length_singleton, List.length_nil]
  omega

lemma sine_length (n : ℕ) (k : ℝ) (hn : 1 ≤ n) :
    (Chord.new_sine n k).chord.length = n + 1 := by
  unfold Chord.new_sine
  simp only [List.length_append, List.length_map, List.length_range', List.length_cons,
    List.length_singleton, List.length_nil]
  omega

/-- Characterisation of the dots built by the linear (tent/V) constructor. -/
lemma new_getD (n : ℕ) (k : ℝ) (hn : 2 ≤ n) {i : ℕ} (hi : i ≤ n) :
    (Chord.new n k).chord.getD i dot0 =
      if i = 0 then Dot.new 0 0 true
      else if i = n then Dot.new (n : ℝ) 0 true
      else if i < n / 2 then Dot.new (i : ℝ) ((i : ℝ) * 0.375) false
      else Dot.new (i : ℝ) (((n : ℝ) - (i : ℝ)) * 0.375) false := by
  have h2 : 1 ≤ n / 2 := by omega
  have hh : n / 2 ≤ n := Nat.div_le_self n 2
  unfold Chord.new
  dsimp only
  rw [List.getD_eq_getElem?_getD, List.append_assoc, List.append_assoc, List.singleton_append]
  cases i with
  | zero => rw [List.getElem?_cons_zero, Option.getD_some, if_pos rfl]
  | succ j =>
    rw [List.getElem?_cons_succ, if_neg (Nat.succ_ne_zero j)]
    by_cases hjn : j + 1 = n
    · rw [if_pos hjn]
      rw [List.getElem?_append_right (by rw [List.length_map, List.length_range']; omega)]
      rw [List.length_map, List.length_range']
      rw [List.getElem?_append_right (by rw [List.length_map, List.length_range']; omega)]
      rw [List.length_map, List.length_range']
      rw [show j - (n / 2 - 1) - (n - n / 2) = 0 from by omega]
      rw [List.getElem?_cons_zero, Option.getD_some]
    · by_cases hlt : j + 1 < n / 2
      · rw [if_neg hjn, if_pos hlt]
        rw [List.getElem?_append_left (by rw [List.length_map, List.length_range']; omega)]
        rw [List.getElem?_map, List.getElem?_range' _ _ (by omega), Option.map_some',
          Option.getD_some]
        rw [show 1 + 1 * j = j + 1 from by omega]
      · rw [if_neg hjn, if_neg hlt]
        rw [List.getElem?_append_right (by rw [List.length_map, List.length_range']; omega)]
        rw [List.length_map, List.length_range']
        rw [List.getElem?_append_left (by rw [List.length_map, List.length_range']; omega)]
        rw [List.getElem?_map, List.getElem?_range' _ _ (by omega), Option.map_some',
          Option.getD_some]
        rw [show n / 2 + 1 * (j - (n / 2 - 1)) = j + 1 from by omega]

/-- Characterisation of the dots built by the sine constructor. -/
lemma sine_getD (n : ℕ) (k : ℝ) (hn : 1 ≤ n) {i : ℕ} (hi : i ≤ n) :
    (Chord.new_sine n k).chord.getD i dot0 =
      if i = 0 then Dot.new 0 0 true
      else if i = n then Dot.new (n : ℝ) 0 true
      else Dot.new (i : ℝ) (Real.sin (Real.pi * (i : ℝ) / (n : ℝ)) * 5) false := by
  unfold Chord.new_sine
  dsimp only
  rw [List.getD_eq_getElem?_getD, List.append_assoc, List.singleton_append]
  cases i with
  | zero => rw [List.getElem?_cons_zero, Option.getD_some, if_pos rfl]
  | succ j =>
    rw [List.getElem?_cons_succ, if_neg (Nat.succ_ne_zero j)]
    by_cases hjn : j + 1 = n
    · rw [if_pos hjn]
      rw [List.getElem?_append_right (by rw [List.length_map, List.length_range']; omega)]
      rw [List.length_map, List.length_range']
      rw [show j - (n - 1) = 0 from by omega]
      rw [List.getElem?_cons_zero, Option.getD_some]
    · rw [if_neg hjn]
      rw [List.getElem?_append_left (by rw [List.length_map, List.length_range']; omega)]
      rw [List.getElem?_map, List.getElem?_range' _ _ (by omega), Option.map_some',
        Option.getD_some]
      rw [show 1 + 1 * j = j + 1 from by omega]

lemma Vect.add_x (a b : Vect) : (a.add b).x = a.x + b.x := rfl

lemma Vect.add_y (a b : Vect) : (a.add b).y = a.y + b.y := rfl

lemma Vect.sub_x (a b : Vect) : (a.sub b).x = a.x - b.x := rfl

lemma Vect.sub_y (a b : Vect) : (a.sub b).y = a.y - b.y := rfl

lemma Vect.scale_x (v : Vect) (r : ℝ) : (v.scale r).x = v.x * r := rfl

lemma Vect.scale_y (v : Vect) (r : ℝ) : (v.scale r).y = v.y * r := rfl

lemma specIntegrate_acc (d : Dot) : (specIntegrate d).acc = d.acc := by
  unfold specIntegrate
  split <;> rfl

lemma specIntegrate_fixed (d : Dot) : (specIntegrate d).fixed = d.fixed := by
  unfold specIntegrate
  split <;> rfl

/-- Integration after a force update, fixed dot: only the acceleration has
changed. -/
lemma specIntegrate_set_force_fixed {d : Dot} (a : Vect) (h : d.fixed = true) :
    specIntegrate (d.set_force a) = ⟨d.pos, d.vel, a, true⟩ := by
  unfold specIntegrate Dot.set_force
  ext <;> simp [h]

/-- Integration after a force update, free dot: acceleration replaced,
velocity picks up the new acceleration, position picks up the new
velocity. -/
lemma specIntegrate_set_force_free {d : Dot} (a : Vect) (h : d.fixed = false) :
    specIntegrate (d.set_force a) =
      ⟨d.pos.add (d.vel.add a), d.vel.add a, a, false⟩ := by
  unfold specIntegrate Dot.set_force
  ext <;> simp [h]

/-- One tick leaves the position, velocity and fixed flag of a fixed dot
untouched. -/
lemma tick_fixed_dot (c : Chord) (i : ℕ) (h : (c.chord.getD i dot0).fixed = true) :
    (c.tick.chord.getD i dot0).pos = (c.chord.getD i dot0).pos ∧
    (c.tick.chord.getD i dot0).vel = (c.chord.getD i dot0).vel ∧
    (c.tick.chord.getD i dot0).fixed = true := by
  by_cases hi : i < c.chord.length
  · rw [tick_getD c hi, specIntegrate_set_force_fixed _ h]
    exact ⟨rfl, rfl, rfl⟩
  · have hoob : c.chord.getD i dot0 = dot0 := getD_oob (le_of_not_lt hi)
    rw [hoob] at h
    simp [dot0, Dot.new] at h

lemma tick_iter_length (c : Chord) (m : ℕ) :
    (Chord.tick^[m] c).chord.length = c.chord.length := by
  induction m with
  | zero => rfl
  | succ m ih => rw [Function.iterate_succ_apply', tick_length, ih]

/-- Any number of ticks leaves the position, velocity and fixed flag of a
fixed dot untouched. -/
lemma tick_iter_fixed_dot (c : Chord) (m i : ℕ)
    (h : (c.chord.getD i dot0).fixed = true) :
    ((Chord.tick^[m] c).chord.getD i dot0).pos = (c.chord.getD i dot0).pos ∧
    ((Chord.tick^[m] c).chord.getD i dot0).vel = (c.chord.getD i dot0).vel ∧
    ((Chord.tick^[m] c).chord.getD i dot0).fixed = true := by
  induction m with
  | zero => exact ⟨rfl, rfl, h⟩
  | succ m ih =>
    obtain ⟨hp, hv, hf⟩ := ih
    obtain ⟨hp', hv', hf'⟩ := tick_fixed_dot (Chord.tick^[m] c) i hf
    rw [Function.iterate_succ_apply']
    exact ⟨hp'.trans hp, hv'.trans hv, hf'⟩

/-- One tick preserves the straight-chain invariant. -/
lemma straightInv_tick {c : Chord} (h : StraightInv c) : StraightInv c.tick := by
  intro i hi
  rw [tick_length] at hi ⊢
  obtain ⟨hx, hv, _, hf⟩ := h i hi
  by_cases hfix : (c.chord.getD i dot0).fixed = true
  · rw [tick_getD c hi, specIntegrate_set_force_fixed _ hfix]
    refine ⟨hx, hv, ?_, fun _ => rfl⟩
    intro hc
    cases hc
  · have hfree : (c.chord.getD i dot0).fixed = false := by
      cases hb : (c.chord.getD i dot0).fixed
      · rfl
      · exact absurd hb hfix
    have hne : ¬(i = 0 ∨ i = c.chord.length - 1) := by
      intro hor
      rw [hf hor] at hfree
      cases hfree
    push_neg at hne
    obtain ⟨hi0, hil⟩ := hne
    have h0 : 0 < i := Nat.pos_of_ne_zero hi0
    have h1 : i < c.chord.length - 1 := by omega
    have haccx : (specAcc c.k c.chord i).x = 0 := by
      unfold specAcc
      rw [if_pos h0, if_pos h1, Vect.scale_x, Vect.add_x, Vect.sub_x, Vect.sub_x]
      unfold posAt
      have hxm := (h (i - 1) (by omega)).1
      have hxp := (h (i + 1) (by omega)).1
      rw [hxm, hxp, hx]
      push_cast [Nat.cast_sub (by omega : 1 ≤ i)]
      ring
    rw [tick_getD c hi, specIntegrate_set_force_free _ hfree]
    refine ⟨?_, ?_, fun _ => haccx, ?_⟩
    · show ((c.chord.getD i dot0).pos.add
        ((c.chord.getD i dot0).vel.add (specAcc c.k c.chord i))).x = (i : ℝ)
      rw [Vect.add_x, Vect.add_x, hx, hv, haccx]
      ring
    · show ((c.chord.getD i dot0).vel.add (specAcc c.k c.chord i)).x = 0
      rw [Vect.add_x, hv, haccx]
      ring
    · intro hor
      exact absurd hor (by omega)

lemma straightInv_iter {c : Chord} (h : StraightInv c) (m : ℕ) :
    StraightInv (Chord.tick^[m] c) := by
  induction m with
  | zero => exact h
  | succ m ih =>
    rw [Function.iterate_succ_apply']
    exact straightInv_tick ih

/-- The linear constructor satisfies the straight-chain invariant. -/
lemma straightInv_new (n : ℕ) (k : ℝ) (hn : 2 ≤ n) : StraightInv (Chord.new n k) := by
  intro i hi
  rw [new_length n k hn] at hi ⊢
  have hi' : i ≤ n := by omega
  rw [new_getD n k hn hi']
  by_cases h0 : i = 0
  · subst h0
    simp [Dot.new]
  · by_cases hn' : i = n
    · subst hn'
      rw [if_neg h0, if_pos rfl]
      simp [Dot.new]
    · rw [if_neg h0, if_neg hn']
      by_cases hlt : i < n / 2
      · rw [if_pos hlt]
        simp [Dot.new]
        omega
      · rw [if_neg hlt]
        simp [Dot.new]
        omega

/-- The sine constructor satisfies the straight-chain invariant. -/
lemma straightInv_sine (n : ℕ) (k : ℝ) (hn : 2 ≤ n) : StraightInv (Chord.new_sine n k) := by
  intro i hi
  rw [sine_length n k (by omega)] at hi ⊢
  have hi' : i ≤ n := by omega
  rw [sine_getD n k (by omega) hi']
  by_cases h0 : i = 0
  · subst h0
    simp [Dot.new]
  · by_cases hn' : i = n
    · subst hn'
      rw [if_neg h0, if_pos rfl]
      simp [Dot.new]
    · rw [if_neg h0, if_neg hn']
      simp [Dot.new]
      omega

lemma getD_cons_zero (a : Dot) (l : List Dot) : (a :: l).getD 0 dot0 = a := rfl

lemma getD_cons_one (a b : Dot) (l : List Dot) : (a :: b :: l).getD 1 dot0 = b := rfl

/-- C1: `tick()` is a two-phase update: first every point's acceleration is
set to stiffness times the sum of `position[i-1] − position[i]` (when
`i > 0`) and `position[i+1] − position[i]` (when `i < last`), all evaluated
at the pre-tick positions; then every non-fixed point sets
`velocity ← velocity + acceleration` followed by
`position ← position + velocity`, in that order. -/
theorem C1_tick_two_phase (c : Chord) : c.tick = tickSpec c :=
  tick_eq_tickSpec c

/-- C2: for every `n ≥ 2` and either profile, the constructor produces a
chain of exactly `n + 1` points (indices `0..n`) in which point 0 and point
`n` are fixed and every other point is free. -/
theorem C2_constructor_shape (n : ℕ) (k : ℝ) (hn : 2 ≤ n) :
    ((Chord.new n k).chord.length = n + 1 ∧
      ∀ i, i ≤ n → (((Chord.new n k).chord.getD i dot0).fixed = true ↔ (i = 0 ∨ i = n))) ∧
    ((Chord.new_sine n k).chord.length = n + 1 ∧
      ∀ i, i ≤ n →
        (((Chord.new_sine n k).chord.getD i dot0).fixed = true ↔ (i = 0 ∨ i = n))) := by
  refine ⟨⟨new_length n k hn, fun i hi => ?_⟩, sine_length n k (by omega), fun i hi => ?_⟩
  · rw [new_getD n k hn hi]
    by_cases h0 : i = 0
    · subst h0
      simp [Dot.new]
    · by_cases hn' : i = n
      · subst hn'
        rw [if_neg h0, if_pos rfl]
        simp [Dot.new, h0]
      · rw [if_neg h0, if_neg hn']
        by_cases hlt : i < n / 2
        · rw [if_pos hlt]
          simp [Dot.new, h0, hn']
        · rw [if_neg hlt]
          simp [Dot.new, h0, hn']
  · rw [sine_getD n k (by omega) hi]
    by_cases h0 : i = 0
    · subst h0
      simp [Dot.new]
    · by_cases hn' : i = n
      · subst hn'
        rw [if_neg h0, if_pos rfl]
        simp [Dot.new, h0]
      · rw [if_neg h0, if_neg hn']
        simp [Dot.new, h0, hn']

/-- Witness for C2 at `n = 2`, `k = 1`. -/
theorem C2_witness :
    2 ≤ 2 ∧
    (((Chord.new 2 1).chord.length = 2 + 1 ∧
       ∀ i, i ≤ 2 → (((Chord.new 2 1).chord.getD i dot0).fixed = true ↔ (i = 0 ∨ i = 2))) ∧
     ((Chord.new_sine 2 1).chord.length = 2 + 1 ∧
       ∀ i, i ≤ 2 →
         (((Chord.new_sine 2 1).chord.getD i dot0).fixed = true ↔ (i = 0 ∨ i = 2)))) :=
  ⟨by norm_num, C2_constructor_shape 2 1 (by norm_num)⟩

/-- C3: a point whose fixed flag is set keeps exactly its position and
velocity across any number of `tick()` calls. -/
theorem C3_fixed_points_frozen (c : Chord) (m i : ℕ)
    (h : (c.chord.getD i dot0).fixed = true) :
    ((Chord.tick^[m] c).chord.getD i dot0).pos = (c.chord.getD i dot0).pos ∧
    ((Chord.tick^[m] c).chord.getD i dot0).vel = (c.chord.getD i dot0).vel :=
  ⟨(tick_iter_fixed_dot c m i h).1, (tick_iter_fixed_dot c m i h).2.1⟩

/-- Witness for C3: the left endpoint of `new(2, 1)` across three ticks. -/
theorem C3_witness :
    ((Chord.new 2 1).chord.getD 0 dot0).fixed = true ∧
    (((Chord.tick^[3] (Chord.new 2 1)).chord.getD 0 dot0).pos =
        ((Chord.new 2 1).chord.getD 0 dot0).pos ∧
      ((Chord.tick^[3] (Chord.new 2 1)).chord.getD 0 dot0).vel =
        ((Chord.new 2 1).chord.getD 0 dot0).vel) :=
  ⟨rfl, C3_fixed_points_frozen (Chord.new 2 1) 3 0 rfl⟩

/-- C4 counterexample: at segment count `n = 2` the linear constructor
produces 3 points, not `n + 2 = 4`. -/
theorem C4_counterexample : (Chord.new 2 1).chord.length ≠ 2 + 2 := by
  rw [new_length 2 1 (by norm_num)]
  norm_num

/-- C4 (amended): both constructors produce `n + 1` points (indices
`0..n`), with the endpoint points 0 and `n` fixed, for every `n ≥ 2`. -/
theorem C4_amended (n : ℕ) (k : ℝ) (hn : 2 ≤ n) :
    (Chord.new n k).chord.length = n + 1 ∧
    (Chord.new_sine n k).chord.length = n + 1 ∧
    ((Chord.new n k).chord.getD 0 dot0).fixed = true ∧
    ((Chord.new n k).chord.getD n dot0).fixed = true ∧
    ((Chord.new_sine n k).chord.getD 0 dot0).fixed = true ∧
    ((Chord.new_sine n k).chord.getD n dot0).fixed = true := by
  refine ⟨new_length n k hn, sine_length n k (by omega), ?_, ?_, ?_, ?_⟩
  · rw [new_getD n k hn (Nat.zero_le n), if_pos rfl]
    rfl
  · rw [new_getD n k hn le_rfl, if_neg (by omega : ¬n = 0), if_pos rfl]
    rfl
  · rw [sine_getD n k (by omega) (Nat.zero_le n), if_pos rfl]
    rfl
  · rw [sine_getD n k (by omega) le_rfl, if_neg (by omega : ¬n = 0), if_pos rfl]
    rfl

/-- Witness for C4 (amended) at `n = 2`, `k = 1`. -/
theorem C4_witness :
    2 ≤ 2 ∧
    ((Chord.new 2 1).chord.length = 2 + 1 ∧
     (Chord.new_sine 2 1).chord.length = 2 + 1 ∧
     ((Chord.new 2 1).chord.getD 0 dot0).fixed = true ∧
     ((Chord.new 2 1).chord.getD 2 dot0).fixed = true ∧
     ((Chord.new_sine 2 1).chord.getD 0 dot0).fixed = true ∧
     ((Chord.new_sine 2 1).chord.getD 2 dot0).fixed = true) :=
  ⟨by norm_num, C4_amended 2 1 (by norm_num)⟩

/-- C5: the code does not reject segment counts below 2.  At `n = 0` both
constructors silently return a degenerate two-point chain whose two fixed
endpoints coincide at the origin, instead of signalling an error; the
constructors are total and never signal. -/
theorem C5_no_rejection_degenerate :
    (Chord.new 0 1).chord.length = 2 ∧
    ((Chord.new 0 1).chord.getD 0 dot0).fixed = true ∧
    ((Chord.new 0 1).chord.getD 1 dot0).fixed = true ∧
    ((Chord.new 0 1).chord.getD 0 dot0).pos = ((Chord.new 0 1).chord.getD 1 dot0).pos ∧
    (Chord.new_sine 0 1).chord.length = 2 ∧
    ((Chord.new_sine 0 1).chord.getD 0 dot0).pos =
      ((Chord.new_sine 0 1).chord.getD 1 dot0).pos := by
  refine ⟨rfl, rfl, rfl, ?_, rfl, ?_⟩
  · show (⟨0, 0⟩ : Vect) = ⟨((0 : ℕ) : ℝ), 0⟩
    ext <;> simp
  · show (⟨0, 0⟩ : Vect) = ⟨((0 : ℕ) : ℝ), 0⟩
    ext <;> simp

/-- C6 counterexample: a chain whose three dots are colinear (all on the
x-axis) with zero velocities, but unequally spaced (x = 0, 1, 3): after one
`tick` the interior dot's acceleration is `(1, 0) ≠ (0, 0)`, refuting the
claim that colinearity plus zero velocity alone give equilibrium. -/
theorem C6_counterexample :
    Colinear [Dot.new 0 0 true, Dot.new 1 0 false, Dot.new 3 0 true] ∧
    (∀ d ∈ [Dot.new 0 0 true, Dot.new 1 0 false, Dot.new 3 0 true], d.vel = ⟨0, 0⟩) ∧
    0 < 1 ∧
    1 < (Chord.mk 1 [Dot.new 0 0 true, Dot.new 1 0 false,
      Dot.new 3 0 true]).chord.length - 1 ∧
    ((Chord.mk 1 [Dot.new 0 0 true, Dot.new 1 0 false,
        Dot.new 3 0 true]).tick.chord.getD 1 dot0).acc ≠ ⟨0, 0⟩ := by
  refine ⟨⟨0, 1, 0, Or.inr one_ne_zero, ?_⟩, ?_, by norm_num, by simp, ?_⟩
  · intro d hd
    fin_cases hd <;> norm_num [Dot.new]
  · intro d hd
    fin_cases hd <;> rfl
  · rw [tick_three]
    dsimp only
    rw [getD_cons_one, specIntegrate_acc, Dot.acc_set_force]
    intro heq
    have hx := congrArg Vect.x heq
    rw [Vect.scale_x, Vect.add_x, Vect.sub_x, Vect.sub_x] at hx
    norm_num [Dot.new] at hx

/-- C6 (amended): on a chain whose dots are equally spaced along one line
(consecutive position differences all equal) and whose velocities are all
zero, a single `tick` leaves every interior dot's acceleration at the zero
vector. -/
theorem C6_equally_spaced_equilibrium (c : Chord)
    (hsp : EquallySpaced c.chord) (hvel : ∀ d ∈ c.chord, d.vel = ⟨0, 0⟩) :
    ∀ i, 0 < i → i < c.chord.length - 1 →
      (c.tick.chord.getD i dot0).acc = ⟨0, 0⟩ := by
  intro i h0 h1
  have hi : i < c.chord.length := by omega
  rw [tick_getD c hi, specIntegrate_acc, Dot.acc_set_force]
  unfold specAcc
  rw [if_pos h0, if_pos h1]
  have hL := hsp (i - 1) (by omega)
  have hR := hsp i (by omega)
  rw [show i - 1 + 1 = i from by omega] at hL
  have hLx := congrArg Vect.x hL
  have hLy := congrArg Vect.y hL
  have hRx := congrArg Vect.x hR
  have hRy := congrArg Vect.y hR
  rw [Vect.sub_x, Vect.sub_x] at hLx hRx
  rw [Vect.sub_y, Vect.sub_y] at hLy hRy
  ext
  · show (Vect.scale _ _).x = (0 : ℝ)
    rw [Vect.scale_x, Vect.add_x, Vect.sub_x, Vect.sub_x]
    linear_combination c.k * hRx - c.k * hLx
  · show (Vect.scale _ _).y = (0 : ℝ)
    rw [Vect.scale_y, Vect.add_y, Vect.sub_y, Vect.sub_y]
    linear_combination c.k * hRy - c.k * hLy

/-- Witness for C6 (amended): the equally spaced straight chain at
x = 0, 1, 2 with k = 1. -/
theorem C6_witness :
    EquallySpaced (Chord.mk 1 [Dot.new 0 0 true, Dot.new 1 0 false,
      Dot.new 2 0 true]).chord ∧
    (∀ d ∈ (Chord.mk 1 [Dot.new 0 0 true, Dot.new 1 0 false,
      Dot.new 2 0 true]).chord, d.vel = ⟨0, 0⟩) ∧
    ∀ i, 0 < i →
      i < (Chord.mk 1 [Dot.new 0 0 true, Dot.new 1 0 false,
        Dot.new 2 0 true]).chord.length - 1 →
      (((Chord.mk 1 [Dot.new 0 0 true, Dot.new 1 0 false,
          Dot.new 2 0 true]).tick).chord.getD i dot0).acc = ⟨0, 0⟩ := by
  have hsp : EquallySpaced (Chord.mk (1 : ℝ) [Dot.new 0 0 true, Dot.new 1 0 false,
      Dot.new 2 0 true]).chord := by
    intro i hi
    have hi2 : i < 2 := by
      simp at hi
      omega
    interval_cases i
    · rfl
    · show Vect.sub (Dot.new 2 0 true).pos (Dot.new 1 0 false).pos =
        Vect.sub (Dot.new 1 0 false).pos (Dot.new 0 0 true).pos
      ext <;> norm_num [Dot.new, Vect.sub]
  have hvel : ∀ d ∈ (Chord.mk (1 : ℝ) [Dot.new 0 0 true, Dot.new 1 0 false,
      Dot.new 2 0 true]).chord, d.vel = ⟨0, 0⟩ := by
    intro d hd
    fin_cases hd <;> rfl
  exact ⟨hsp, hvel, C6_equally_spaced_equilibrium _ hsp hvel⟩

/-- C7: `new_sine(2, 0.25)` yields the three points `(0,0)` fixed,
`(1, 5·sin(π/2)) = (1, 5)` free, `(2,0)` fixed; after one `tick`, point 1
has acceleration `(0, −2.5)`, velocity `(0, −2.5)`, position `(1, 2.5)`. -/
theorem C7_sine_two_example :
    (Chord.new_sine 2 (0.25)).chord =
      [Dot.new 0 0 true, Dot.new 1 5 false, Dot.new 2 0 true] ∧
    ((Chord.new_sine 2 (0.25)).tick.chord.getD 1 dot0).acc = ⟨0, -2.5⟩ ∧
    ((Chord.new_sine 2 (0.25)).tick.chord.getD 1 dot0).vel = ⟨0, -2.5⟩ ∧
    ((Chord.new_sine 2 (0.25)).tick.chord.getD 1 dot0).pos = ⟨1, 2.5⟩ := by
  have hsin : Real.sin (Real.pi * ((1 : ℕ) : ℝ) / ((2 : ℕ) : ℝ)) * 5 = 5 := by
    rw [Nat.cast_one, Nat.cast_ofNat, mul_one, Real.sin_pi_div_two]
    norm_num
  have hc : Chord.new_sine 2 (0.25) =
      Chord.mk (0.25)
        [Dot.new 0 0 true,
         Dot.new ((1 : ℕ) : ℝ) (Real.sin (Real.pi * ((1 : ℕ) : ℝ) / ((2 : ℕ) : ℝ)) * 5) false,
         Dot.new ((2 : ℕ) : ℝ) 0 true] := rfl
  rw [hsin] at hc
  rw [Nat.cast_one, Nat.cast_ofNat] at hc
  refine ⟨by rw [hc], ?_, ?_, ?_⟩ <;>
    rw [hc, tick_three] <;>
      dsimp only <;>
        rw [getD_cons_one,
          specIntegrate_set_force_free _ (by rfl : (Dot.new (1 : ℝ) 5 false).fixed = false)]
  · show ((Vect.add (Vect.sub (Dot.new 0 0 true).pos (Dot.new 1 5 false).pos)
      (Vect.sub (Dot.new 2 0 true).pos (Dot.new 1 5 false).pos)).scale (0.25)) = _
    ext <;> norm_num [Dot.new, Vect.add, Vect.sub, Vect.scale]
  · show ((Dot.new (1 : ℝ) 5 false).vel.add
      ((Vect.add (Vect.sub (Dot.new 0 0 true).pos (Dot.new 1 5 false).pos)
        (Vect.sub (Dot.new 2 0 true).pos (Dot.new 1 5 false).pos)).scale (0.25))) = _
    ext <;> norm_num [Dot.new, Vect.add, Vect.sub, Vect.scale]
  · show ((Dot.new (1 : ℝ) 5 false).pos.add
      ((Dot.new (1 : ℝ) 5 false).vel.add
        ((Vect.add (Vect.sub (Dot.new 0 0 true).pos (Dot.new 1 5 false).pos)
          (Vect.sub (Dot.new 2 0 true).pos (Dot.new 1 5 false).pos)).scale (0.25)))) = _
    ext <;> norm_num [Dot.new, Vect.add, Vect.sub, Vect.scale]

/-- C8: `tick()` is deterministic: two chords with the same stiffness and
the same point sequence tick to identical chords. -/
theorem C8_tick_deterministic (c1 c2 : Chord) (hk : c1.k = c2.k)
    (hc : c1.chord = c2.chord) : c1.tick = c2.tick := by
  obtain ⟨k1, l1⟩ := c1
  obtain ⟨k2, l2⟩ := c2
  dsimp only at hk hc
  subst hk
  subst hc
  rfl

/-- Witness for C8 on a concrete one-dot chord. -/
theorem C8_witness :
    (Chord.mk 1 [Dot.new 0 0 true]).k = (Chord.mk 1 [Dot.new 0 0 true]).k ∧
    (Chord.mk 1 [Dot.new 0 0 true]).chord = (Chord.mk 1 [Dot.new 0 0 true]).chord ∧
    (Chord.mk 1 [Dot.new 0 0 true]).tick = (Chord.mk 1 [Dot.new 0 0 true]).tick :=
  ⟨rfl, rfl, C8_tick_deterministic _ _ rfl rfl⟩

/-- C9: the force pass writes the acceleration of every point, the fixed
endpoints included: after a `tick`, point 0's acceleration is stiffness
times `position[1] − position[0]`, and the last point's acceleration is
stiffness times `position[last−1] − position[last]` (positions read from
the pre-tick chord); only position and velocity of fixed points are exempt
from mutation, not acceleration. -/
theorem C9_endpoints_get_acc (c : Chord) (h : 2 ≤ c.chord.length) :
    (c.tick.chord.getD 0 dot0).acc =
      Vect.scale (Vect.sub (posAt c.chord 1) (posAt c.chord 0)) c.k ∧
    (c.tick.chord.getD (c.chord.length - 1) dot0).acc =
      Vect.scale (Vect.sub (posAt c.chord (c.chord.length - 2))
        (posAt c.chord (c.chord.length - 1))) c.k := by
  constructor
  · rw [tick_getD c (by omega), specIntegrate_acc, Dot.acc_set_force]
    unfold specAcc
    rw [if_neg (lt_irrefl 0), if_pos (by omega : 0 < c.chord.length - 1)]
    ext
    · rw [Vect.scale_x, Vect.add_x, Vect.sub_x, Vect.scale_x, Vect.sub_x]
      show ((⟨0, 0⟩ : Vect).x + _) * c.k = _
      norm_num
    · rw [Vect.scale_y, Vect.add_y, Vect.sub_y, Vect.scale_y, Vect.sub_y]
      show ((⟨0, 0⟩ : Vect).y + _) * c.k = _
      norm_num
  · rw [tick_getD c (by omega : c.chord.length - 1 < c.chord.length), specIntegrate_acc,
      Dot.acc_set_force]
    unfold specAcc
    rw [if_pos (by omega : 0 < c.chord.length - 1),
      if_neg (lt_irrefl (c.chord.length - 1)),
      show c.chord.length - 1 - 1 = c.chord.length - 2 from by omega]
    ext
    · rw [Vect.scale_x, Vect.add_x, Vect.sub_x, Vect.scale_x, Vect.sub_x]
      show (_ + (⟨0, 0⟩ : Vect).x) * c.k = _
      norm_num
    · rw [Vect.scale_y, Vect.add_y, Vect.sub_y, Vect.scale_y, Vect.sub_y]
      show (_ + (⟨0, 0⟩ : Vect).y) * c.k = _
      norm_num

/-- Witness for C9 on a concrete three-dot chord. -/
theorem C9_witness :
    2 ≤ (Chord.mk 1 [Dot.new 0 0 true, Dot.new 1 5 false,
      Dot.new 2 0 true]).chord.length ∧
    ((Chord.mk 1 [Dot.new 0 0 true, Dot.new 1 5 false,
        Dot.new 2 0 true]).tick.chord.getD 0 dot0).acc =
      Vect.scale (Vect.sub
        (posAt (Chord.mk 1 [Dot.new 0 0 true, Dot.new 1 5 false,
          Dot.new 2 0 true]).chord 1)
        (posAt (Chord.mk 1 [Dot.new 0 0 true, Dot.new 1 5 false,
          Dot.new 2 0 true]).chord 0))
        (Chord.mk 1 [Dot.new 0 0 true, Dot.new 1 5 false, Dot.new 2 0 true]).k ∧
    ((Chord.mk 1 [Dot.new 0 0 true, Dot.new 1 5 false,
        Dot.new 2 0 true]).tick.chord.getD
        ((Chord.mk 1 [Dot.new 0 0 true, Dot.new 1 5 false,
          Dot.new 2 0 true]).chord.length - 1) dot0).acc =
      Vect.scale (Vect.sub
        (posAt (Chord.mk 1 [Dot.new 0 0 true, Dot.new 1 5 false,
          Dot.new 2 0 true]).chord
          ((Chord.mk 1 [Dot.new 0 0 true, Dot.new 1 5 false,
            Dot.new 2 0 true]).chord.length - 2))
        (posAt (Chord.mk 1 [Dot.new 0 0 true, Dot.new 1 5 false,
          Dot.new 2 0 true]).chord
          ((Chord.mk 1 [Dot.new 0 0 true, Dot.new 1 5 false,
            Dot.new 2 0 true]).chord.length - 1)))
        (Chord.mk 1 [Dot.new 0 0 true, Dot.new 1 5 false, Dot.new 2 0 true]).k := by
  have h2 : 2 ≤ (Chord.mk (1 : ℝ) [Dot.new 0 0 true, Dot.new 1 5 false,
      Dot.new 2 0 true]).chord.length := by
    simp
  obtain ⟨ha, hb⟩ := C9_endpoints_get_acc
    (Chord.mk 1 [Dot.new 0 0 true, Dot.new 1 5 false, Dot.new 2 0 true]) h2
  exact ⟨h2, ha, hb⟩

/-- C10 counterexample: after one `tick` on `new(2, 1)`, the fixed left
endpoint's acceleration has x-component `1 ≠ 0`, so not every point's
acceleration keeps a zero x-component. -/
theorem C10_counterexample :
    ((Chord.new 2 1).tick.chord.getD 0 dot0).acc.x ≠ 0 := by
  have hc : Chord.new 2 1 =
      Chord.mk 1 [Dot.new 0 0 true,
        Dot.new ((1 : ℕ) : ℝ) ((((2 : ℕ) : ℝ) - ((1 : ℕ) : ℝ)) * 0.375) false,
        Dot.new ((2 : ℕ) : ℝ) 0 true] := rfl
  rw [hc, tick_three]
  dsimp only
  rw [getD_cons_zero, specIntegrate_acc, Dot.acc_set_force, Vect.scale_x, Vect.add_x,
    Vect.sub_x]
  norm_num [Dot.new]

/-- C10 (amended): for every chain built by either constructor with
`n ≥ 2` and any number of ticks, the point at index `i` keeps position
x-coordinate exactly `i` and velocity x-component 0, and every non-fixed
point keeps acceleration x-component 0 — all motion of free points is
purely vertical, while the fixed endpoints' accelerations do receive a
horizontal component. -/
theorem C10_straight_motion (n : ℕ) (k : ℝ) (m : ℕ) (hn : 2 ≤ n) :
    (∀ i, i < (Chord.tick^[m] (Chord.new n k)).chord.length →
        ((Chord.tick^[m] (Chord.new n k)).chord.getD i dot0).pos.x = (i : ℝ) ∧
        ((Chord.tick^[m] (Chord.new n k)).chord.getD i dot0).vel.x = 0 ∧
        (((Chord.tick^[m] (Chord.new n k)).chord.getD i dot0).fixed = false →
          ((Chord.tick^[m] (Chord.new n k)).chord.getD i dot0).acc.x = 0)) ∧
    (∀ i, i < (Chord.tick^[m] (Chord.new_sine n k)).chord.length →
        ((Chord.tick^[m] (Chord.new_sine n k)).chord.getD i dot0).pos.x = (i : ℝ) ∧
        ((Chord.tick^[m] (Chord.new_sine n k)).chord.getD i dot0).vel.x = 0 ∧
        (((Chord.tick^[m] (Chord.new_sine n k)).chord.getD i dot0).fixed = false →
          ((Chord.tick^[m] (Chord.new_sine n k)).chord.getD i dot0).acc.x = 0)) := by
  constructor
  · intro i hi
    obtain ⟨h1, h2, h3, _⟩ := straightInv_iter (straightInv_new n k hn) m i hi
    exact ⟨h1, h2, h3⟩
  · intro i hi
    obtain ⟨h1, h2, h3, _⟩ := straightInv_iter (straightInv_sine n k hn) m i hi
    exact ⟨h1, h2, h3⟩

/-- Witness for C10 (amended) at `n = 2`, `k = 1`, one tick. -/
theorem C10_witness :
    2 ≤ 2 ∧
    ((∀ i, i < (Chord.tick^[1] (Chord.new 2 1)).chord.length →
        ((Chord.tick^[1] (Chord.new 2 1)).chord.getD i dot0).pos.x = (i : ℝ) ∧
        ((Chord.tick^[1] (Chord.new 2 1)).chord.getD i dot0).vel.x = 0 ∧
        (((Chord.tick^[1] (Chord.new 2 1)).chord.getD i dot0).fixed = false →
          ((Chord.tick^[1] (Chord.new 2 1)).chord.getD i dot0).acc.x = 0)) ∧
     (∀ i, i < (Chord.tick^[1] (Chord.new_sine 2 1)).chord.length →
        ((Chord.tick^[1] (Chord.new_sine 2 1)).chord.getD i dot0).pos.x = (i : ℝ) ∧
        ((Chord.tick^[1] (Chord.new_sine 2 1)).chord.getD i dot0).vel.x = 0 ∧
        (((Chord.tick^[1] (Chord.new_sine 2 1)).chord.getD i dot0).fixed = false →
          ((Chord.tick^[1] (Chord.new_sine 2 1)).chord.getD i dot0).acc.x = 0))) :=
  ⟨by norm_num, C10_straight_motion 2 1 1 (by norm_num)⟩
